import Mathlib

/-!
A shallow embedding of `atropos/filters.py`: the per-read filter predicates,
the single/paired wrapper layer that adapts a predicate to a record,
the wrapper factory, and the ordered filter chain (`Filters`).

Reads are modelled by the fields the filters inspect: the symbol sequence,
the merged flag and the optional trim-match marker.  Python float thresholds
are modelled as rationals, Python ints as `Int`, and the mutable `filtered`
counters by explicit state passing: a wrapper call returns the verdict
together with the updated wrapper.  A constructor that can raise
(`PairedWrapper.__init__`, `NContentFilter.__init__`) is modelled as an
`Option`-returning function, `none` standing for the raised error.
-/

/-- The read entity consumed by the filters: a sequence of symbols, a
merged flag, and an optional trim-match marker.  `len(read)` is the length
of the sequence. -/
structure Read where
  sequence : List Char
  merged : Bool
  rmatch : Option Nat
deriving DecidableEq, Repr

/-- `len(read)`. -/
def Read.len (r : Read) : Nat := r.sequence.length

/-- `DISCARD = True` from the source. -/
def DISCARD : Bool := true

/-- `KEEP = False` from the source. -/
def KEEP : Bool := false

/-- `MergedReadFilter.__call__`: `return read.merged`. -/
def MergedReadFilter.call (read : Read) : Bool := read.merged

/-- `TooShortReadFilter` holds its `minimum_length`. -/
structure TooShortReadFilter where
  minimum_length : Int

/-- `TooShortReadFilter.__call__`: `return len(read) < self.minimum_length`. -/
def TooShortReadFilter.call (fl : TooShortReadFilter) (read : Read) : Bool :=
  decide ((read.len : Int) < fl.minimum_length)

/-- `TooLongReadFilter` holds its `maximum_length`. -/
structure TooLongReadFilter where
  maximum_length : Int

/-- `TooLongReadFilter.__call__`: `return len(read) > self.maximum_length`. -/
def TooLongReadFilter.call (fl : TooLongReadFilter) (read : Read) : Bool :=
  decide ((read.len : Int) > fl.maximum_length)

/-- `NContentFilter` stores the flag `is_proportion` (fixed at construction)
and the `cutoff`. -/
structure NContentFilter where
  is_proportion : Bool
  cutoff : ℚ
deriving DecidableEq, Repr

/-- `NContentFilter.__init__`: `assert count >= 0` (a failing assertion is
`none`), then `is_proportion = count < 1.0`, `cutoff = count`. -/
def NContentFilter.init (count : ℚ) : Option NContentFilter :=
  if 0 ≤ count then
    some { is_proportion := decide (count < 1), cutoff := count }
  else
    none

/-- `read.sequence.lower().count('n')`: the number of symbols whose
lowercase form is the letter n. -/
def NContentFilter.nCount (read : Read) : Nat :=
  (read.sequence.map Char.toLower).count 'n'

/-- `NContentFilter.__call__`: in proportion mode a zero-length read is
kept, otherwise discard iff `n_count / len(read) > cutoff`; in absolute
mode discard iff `n_count > cutoff`. -/
def NContentFilter.call (fl : NContentFilter) (read : Read) : Bool :=
  let n_count := NContentFilter.nCount read
  if fl.is_proportion then
    if read.len = 0 then false
    else decide ((n_count : ℚ) / (read.len : ℚ) > fl.cutoff)
  else
    decide ((n_count : ℚ) > fl.cutoff)

/-- `UntrimmedFilter.__call__`: `return read.match is None`. -/
def UntrimmedFilter.call (read : Read) : Bool := read.rmatch.isNone

/-- `TrimmedFilter.__call__`: `return read.match is not None`. -/
def TrimmedFilter.call (read : Read) : Bool := read.rmatch.isSome

/-- `NoFilter.__call__`: `return False`. -/
def NoFilter.call (_read : Read) : Bool := false

/-- `SingleWrapper`: the discard counter `filtered` and the wrapped
predicate `filter`. -/
structure SingleWrapper where
  filtered : Nat
  filter : Read → Bool

/-- `SingleWrapper.__init__`: counter starts at 0. -/
def SingleWrapper.init (f : Read → Bool) : SingleWrapper :=
  { filtered := 0, filter := f }

/-- `SingleWrapper.__call__`: if the predicate matches the first read,
increment the counter and return `DISCARD`; otherwise return `KEEP`.
The second read is never inspected. -/
def SingleWrapper.call (w : SingleWrapper) (read1 : Read) (_read2 : Option Read) :
    Bool × SingleWrapper :=
  if w.filter read1 then
    (DISCARD, { w with filtered := w.filtered + 1 })
  else
    (KEEP, w)

/-- `PairedWrapper`: counter, predicate, and the `min_affected` threshold. -/
structure PairedWrapper where
  filtered : Nat
  filter : Read → Bool
  min_affected : Int

/-- `PairedWrapper.__init__`: `if not min_affected in (1, 2): raise
ValueError` (modelled as `none`); otherwise counter 0, stored predicate and
threshold. -/
def PairedWrapper.init (f : Read → Bool) (min_affected : Int) : Option PairedWrapper :=
  if min_affected = 1 ∨ min_affected = 2 then
    some { filtered := 0, filter := f, min_affected := min_affected }
  else
    none

/-- The local variable `failures` of `PairedWrapper.__call__` after both
updates: start at 0, add 1 if the predicate matches read 1; then, only when
`min_affected - failures == 1`, add 1 if `read2 is None or
self.filter(read2)` (an absent second read makes that condition true). -/
def PairedWrapper.failures (w : PairedWrapper) (read1 : Read) (read2 : Option Read) : Int :=
  let failures0 : Int := if w.filter read1 then 1 else 0
  let second : Bool :=
    match read2 with
    | none => true
    | some r => w.filter r
  if w.min_affected - failures0 = 1 ∧ second = true then failures0 + 1 else failures0

/-- `PairedWrapper.__call__`: discard (and count) iff
`failures >= min_affected`. -/
def PairedWrapper.call (w : PairedWrapper) (read1 : Read) (read2 : Option Read) :
    Bool × PairedWrapper :=
  if w.failures read1 read2 ≥ w.min_affected then
    (DISCARD, { w with filtered := w.filtered + 1 })
  else
    (KEEP, w)

/-- The two wrapper kinds a factory can build. -/
inductive Wrapper
  | single : SingleWrapper → Wrapper
  | paired : PairedWrapper → Wrapper

/-- Calling a wrapper dispatches to the variant's `__call__`. -/
def Wrapper.call : Wrapper → Read → Option Read → Bool × Wrapper
  | .single w, read1, read2 =>
      let res := w.call read1 read2
      (res.1, .single res.2)
  | .paired w, read1, read2 =>
      let res := w.call read1 read2
      (res.1, .paired res.2)

/-- The discard counter of either wrapper kind. -/
def Wrapper.filtered : Wrapper → Nat
  | .single w => w.filtered
  | .paired w => w.filtered

/-- `FilterFactory` holds the pipeline-wide `paired` mode string and the
`min_affected` threshold. -/
structure FilterFactory where
  paired : String
  min_affected : Int

/-- `FilterFactory.__call__` around an already-constructed predicate `f`:
if `paired == "both"` build a `PairedWrapper(f, min_affected)` (which can
raise), else a `SingleWrapper(f)`. -/
def FilterFactory.call (fac : FilterFactory) (f : Read → Bool) : Option Wrapper :=
  if fac.paired = "both" then
    (PairedWrapper.init f fac.min_affected).map Wrapper.paired
  else
    some (Wrapper.single (SingleWrapper.init f))

/-- The filter-class identities used as `OrderedDict` keys in `Filters`,
plus the `NoFilter` sentinel. -/
inductive FilterType
  | MergedReadFilter
  | TooShortReadFilter
  | TooLongReadFilter
  | NContentFilter
  | UntrimmedFilter
  | TrimmedFilter
  | NoFilter
deriving DecidableEq, Repr

/-- `OrderedDict.__setitem__` on an association list: replace the value of
an existing key in place, append a new key at the end. -/
def dictSet : List (FilterType × Wrapper) → FilterType → Wrapper →
    List (FilterType × Wrapper)
  | [], k, v => [(k, v)]
  | (k', v') :: rest, k, v =>
      if k' = k then (k, v) :: rest else (k', v') :: dictSet rest k v

/-- `Filters`: the ordered mapping from filter identity to wrapper, and the
factory used by `add_filter`. -/
structure Filters where
  filters : List (FilterType × Wrapper)
  filter_factory : FilterFactory

/-- `Filters.add_filter`: build a wrapper through the factory (around the
predicate `f` that `filter_type(*args, **kwargs)` constructs) and store it
under `filter_type`; a raising factory propagates as `none`. -/
def Filters.add_filter (fs : Filters) (filter_type : FilterType) (f : Read → Bool) :
    Option Filters :=
  (fs.filter_factory.call f).map fun w =>
    { fs with filters := dictSet fs.filters filter_type w }

/-- The loop body of `Filters.filter`: walk the entries in order, call each
wrapper, stop at the first `DISCARD` and report its identity; entries after
the break are not called. -/
def filterLoop : List (FilterType × Wrapper) → Read → Option Read →
    FilterType × List (FilterType × Wrapper)
  | [], _, _ => (FilterType.NoFilter, [])
  | (ft, w) :: rest, read1, read2 =>
      if (w.call read1 read2).1 = DISCARD then
        (ft, (ft, (w.call read1 read2).2) :: rest)
      else
        ((filterLoop rest read1 read2).1,
          (ft, (w.call read1 read2).2) :: (filterLoop rest read1 read2).2)

/-- `Filters.filter`: returns the identity of the first wrapper that
discards, `NoFilter` when none does, together with the updated chain. -/
def Filters.filter (fs : Filters) (read1 : Read) (read2 : Option Read) :
    FilterType × Filters :=
  let res := filterLoop fs.filters read1 read2
  (res.1, { fs with filters := res.2 })

/-- `Filters.__contains__`. -/
def Filters.containsType (fs : Filters) (filter_type : FilterType) : Bool :=
  fs.filters.any fun p => decide (p.1 = filter_type)

/-- The verdict a wrapper would return on a record: the Boolean result of
its `__call__`. -/
def discards (w : Wrapper) (read1 : Read) (read2 : Option Read) : Bool :=
  (w.call read1 read2).1

/-! ### Helper lemmas shared by the proofs -/

/-- A read with an empty sequence. -/
def readEmpty : Read := ⟨[], false, none⟩

/-- A read consisting of a single letter N. -/
def readN1 : Read := ⟨['N'], false, none⟩

theorem singleWrapper_call_filtered (w : SingleWrapper) (r1 : Read) (r2 : Option Read) :
    (w.call r1 r2).2.filtered =
      w.filtered + (if (w.call r1 r2).1 = DISCARD then 1 else 0) := by
  unfold SingleWrapper.call
  by_cases hf : w.filter r1 = true <;> simp [hf, DISCARD, KEEP]

theorem pairedWrapper_call_filtered (w : PairedWrapper) (r1 : Read) (r2 : Option Read) :
    (w.call r1 r2).2.filtered =
      w.filtered + (if (w.call r1 r2).1 = DISCARD then 1 else 0) := by
  unfold PairedWrapper.call
  by_cases hge : w.failures r1 r2 ≥ w.min_affected <;>
    simp [hge, DISCARD, KEEP]

theorem wrapper_call_filtered (w : Wrapper) (r1 : Read) (r2 : Option Read) :
    (w.call r1 r2).2.filtered =
      w.filtered + (if (w.call r1 r2).1 = DISCARD then 1 else 0) := by
  cases w with
  | single s =>
      simpa [Wrapper.call, Wrapper.filtered] using singleWrapper_call_filtered s r1 r2
  | paired p =>
      simpa [Wrapper.call, Wrapper.filtered] using pairedWrapper_call_filtered p r1 r2

theorem singleWrapper_call_keep (w : SingleWrapper) (r1 : Read) (r2 : Option Read)
    (h : (w.call r1 r2).1 ≠ DISCARD) : (w.call r1 r2).2 = w := by
  unfold SingleWrapper.call at h ⊢
  by_cases hf : w.filter r1 = true <;> simp_all [DISCARD, KEEP]

theorem pairedWrapper_call_keep (w : PairedWrapper) (r1 : Read) (r2 : Option Read)
    (h : (w.call r1 r2).1 ≠ DISCARD) : (w.call r1 r2).2 = w := by
  unfold PairedWrapper.call at h ⊢
  by_cases hge : w.failures r1 r2 ≥ w.min_affected
  · rw [if_pos hge] at h
    simp [DISCARD] at h
  · rw [if_neg hge]

theorem wrapper_call_keep (w : Wrapper) (r1 : Read) (r2 : Option Read)
    (h : (w.call r1 r2).1 ≠ DISCARD) : (w.call r1 r2).2 = w := by
  cases w with
  | single s =>
      have := singleWrapper_call_keep s r1 r2 (by simpa [Wrapper.call] using h)
      simp [Wrapper.call, this]
  | paired p =>
      have := pairedWrapper_call_keep p r1 r2 (by simpa [Wrapper.call] using h)
      simp [Wrapper.call, this]

theorem pairedWrapper_init_elim (f : Read → Bool) (m : Int) (w : PairedWrapper)
    (h : PairedWrapper.init f m = some w) :
    (m = 1 ∨ m = 2) ∧ w = ⟨0, f, m⟩ := by
  unfold PairedWrapper.init at h
  by_cases hm : m = 1 ∨ m = 2
  · rw [if_pos hm] at h
    exact ⟨hm, (Option.some_inj.mp h).symm⟩
  · rw [if_neg hm] at h
    exact absurd h (by simp)

/-! ### C6: the LegacyEvaluator decides from the first read only -/

/-- C6: `SingleWrapper` discards a record iff the predicate matches the
first read, and its result does not depend on the second read at all (so a
pair in which only the second read matches is always kept). -/
theorem legacy_first_read_only (w : SingleWrapper) (r1 : Read) (r2 r2' : Option Read) :
    ((w.call r1 r2).1 = DISCARD ↔ w.filter r1 = true) ∧
    w.call r1 r2 = w.call r1 r2' := by
  unfold SingleWrapper.call
  by_cases hf : w.filter r1 = true <;> simp [hf, DISCARD, KEEP]

/-! ### C7: the discard counter is consistent with the verdict -/

/-- C7: for either wrapper kind, one `__call__` leaves the `filtered`
counter at its old value plus one exactly when the verdict is `DISCARD`,
and unchanged when the verdict is `KEEP`. -/
theorem evaluator_counter_consistent (w : Wrapper) (r1 : Read) (r2 : Option Read) :
    (w.call r1 r2).2.filtered =
      w.filtered + (if (w.call r1 r2).1 = DISCARD then 1 else 0) :=
  wrapper_call_filtered w r1 r2

/-! ### C1: a pair with an absent second read under the PairedWrapper -/

/-- C1 counterexample: under `min_affected = 1`, a record whose predicate
does not match the first read and whose second read is absent is
discarded, because `read2 is None or self.filter(read2)` is true for an
absent second read; the claim says it would be kept. -/
theorem paired_absent_read2_cex :
    PairedWrapper.init (fun _ => false) 1 = some ⟨0, fun _ => false, 1⟩ ∧
    (fun (_ : Read) => false) readEmpty = KEEP ∧
    (PairedWrapper.call ⟨0, fun _ => false, 1⟩ readEmpty none).1 = DISCARD :=
  ⟨rfl, rfl, rfl⟩

/-- C1 amended: an absent second read counts as matching, so with
`min_affected = 1` the record is always discarded, and with
`min_affected = 2` it is discarded iff the predicate matches the first
read. -/
theorem paired_absent_read2 (f : Read → Bool) (m : Int) (w : PairedWrapper)
    (h : PairedWrapper.init f m = some w) (r1 : Read) :
    (w.call r1 none).1 = DISCARD ↔ (m = 1 ∨ f r1 = true) := by
  obtain ⟨hm, rfl⟩ := pairedWrapper_init_elim f m w h
  rcases hm with rfl | rfl <;> cases hf : f r1 <;>
    simp [PairedWrapper.call, PairedWrapper.failures, hf, DISCARD, KEEP]

/-- C1 witness: the amended statement evaluated at `min_affected = 2` and a
matching first read. -/
theorem paired_absent_read2_witness :
    (PairedWrapper.call ⟨0, fun _ => true, 2⟩ readEmpty none).1 = DISCARD ↔
      ((2 : Int) = 1 ∨ (fun (_ : Read) => true) readEmpty = true) :=
  paired_absent_read2 (fun _ => true) 2 ⟨0, fun _ => true, 2⟩ rfl readEmpty

/-! ### C3: a pair with both reads present under the PairedWrapper -/

/-- C3: with both reads present the record is discarded iff the number of
reads matched by the predicate is at least `min_affected`: under
`min_affected = 1` iff the first or the second read matches, and under
`min_affected = 2` iff both match. -/
theorem paired_both_present (f : Read → Bool) (m : Int) (w : PairedWrapper)
    (h : PairedWrapper.init f m = some w) (r1 r2 : Read) :
    ((w.call r1 (some r2)).1 = DISCARD ↔
      ((if f r1 = true then 1 else 0) + (if f r2 = true then 1 else 0) : Int) ≥ m) ∧
    (m = 1 → ((w.call r1 (some r2)).1 = DISCARD ↔ (f r1 = true ∨ f r2 = true))) ∧
    (m = 2 → ((w.call r1 (some r2)).1 = DISCARD ↔ (f r1 = true ∧ f r2 = true))) := by
  obtain ⟨hm, rfl⟩ := pairedWrapper_init_elim f m w h
  rcases hm with rfl | rfl <;> cases hf1 : f r1 <;> cases hf2 : f r2 <;>
    simp [PairedWrapper.call, PairedWrapper.failures, hf1, hf2, DISCARD, KEEP]

/-- C3 witness: `min_affected = 1` with a matching first read discards. -/
theorem paired_both_present_witness :
    (PairedWrapper.call ⟨0, fun _ => true, 1⟩ readEmpty (some readEmpty)).1 = DISCARD :=
  ((paired_both_present (fun _ => true) 1 ⟨0, fun _ => true, 1⟩ rfl
      readEmpty readEmpty).2.1 rfl).mpr (Or.inl rfl)

/-! ### C5: PairedWrapper construction-time validation, total evaluation -/

/-- C5: `PairedWrapper` construction succeeds exactly for
`min_affected ∈ {1, 2}` (anything else raises at construction), and every
constructed wrapper's `__call__` is total: it returns one of the two
verdicts on every record. -/
theorem paired_construction (f : Read → Bool) (m : Int) :
    ((PairedWrapper.init f m).isSome ↔ (m = 1 ∨ m = 2)) ∧
    (∀ w, PairedWrapper.init f m = some w → ∀ r1 r2,
      (w.call r1 r2).1 = DISCARD ∨ (w.call r1 r2).1 = KEEP) := by
  constructor
  · unfold PairedWrapper.init
    by_cases hm : m = 1 ∨ m = 2 <;> simp [hm]
  · intro w _hw r1 r2
    cases hv : (w.call r1 r2).1 with
    | false => exact Or.inr (by simp [KEEP, hv])
    | true => exact Or.inl (by simp [DISCARD, hv])

/-- C5 witness: `min_affected = 3` fails to construct; a wrapper built with
`min_affected = 1` returns a verdict. -/
theorem paired_construction_witness :
    ¬ (PairedWrapper.init (fun (_ : Read) => true) 3).isSome ∧
    ((PairedWrapper.call ⟨0, fun _ => true, 1⟩ readEmpty none).1 = DISCARD ∨
      (PairedWrapper.call ⟨0, fun _ => true, 1⟩ readEmpty none).1 = KEEP) := by
  constructor
  · intro hs
    rcases (paired_construction (fun _ => true) 3).1.mp hs with h | h <;> norm_num at h
  · exact (paired_construction (fun _ => true) 1).2 ⟨0, fun _ => true, 1⟩ rfl readEmpty none

/-! ### C2: NContent threshold semantics -/

theorem char_toNat_ofNatAux (n : Nat) (h : n.isValidChar) :
    (Char.ofNatAux n h).toNat = n := by
  unfold Char.ofNatAux Char.toNat
  simp [UInt32.toNat, BitVec.toNat_ofNatLt]

theorem char_toLower_eq_n (c : Char) : c.toLower = 'n' ↔ (c = 'N' ∨ c = 'n') := by
  constructor
  · intro h
    unfold Char.toLower at h
    simp only at h
    by_cases hr : c.toNat ≥ 65 ∧ c.toNat ≤ 90
    · rw [if_pos hr] at h
      left
      have hv : (c.toNat + 32).isValidChar := by
        unfold Nat.isValidChar
        omega
      rw [Char.ofNat, dif_pos hv] at h
      have h2 : (Char.ofNatAux (c.toNat + 32) hv).toNat = ('n').toNat :=
        congrArg Char.toNat h
      rw [char_toNat_ofNatAux] at h2
      have h3 : c.toNat = ('N').toNat := by
        have e1 : ('n').toNat = 110 := by decide
        have e2 : ('N').toNat = 78 := by decide
        omega
      have hval : c.val = ('N').val := by
        unfold Char.toNat at h3
        exact UInt32.toNat.inj h3
      exact Char.eq_of_val_eq hval
    · rw [if_neg hr] at h
      right
      exact h
  · rintro (rfl | rfl) <;> decide

theorem nCount_filter_eq (l : List Char) :
    (l.map Char.toLower).count 'n' = (l.filter fun c => c == 'N' || c == 'n').length := by
  induction l with
  | nil => rfl
  | cons c cs ih =>
      by_cases hc : c = 'N' ∨ c = 'n'
      · have h1 : c.toLower = 'n' := (char_toLower_eq_n c).mpr hc
        have h2 : (c == 'N' || c == 'n') = true := by
          rcases hc with rfl | rfl <;> simp
        simp [List.count_cons, List.filter_cons, h1, h2, ih]
      · have h1 : ¬ c.toLower = 'n' := fun h => hc ((char_toLower_eq_n c).mp h)
        have h2 : (c == 'N' || c == 'n') = false := by
          simp only [Bool.or_eq_false_iff, beq_eq_false_iff_ne]
          exact ⟨fun h => hc (Or.inl h), fun h => hc (Or.inr h)⟩
        simp [List.count_cons, List.filter_cons, h1, h2, ih]

/-- C2: the N counter treats upper- and lowercase n alike, and the mode is
decided by the threshold's magnitude: a constructed filter with threshold
`t < 1` discards iff the proportion of Ns strictly exceeds `t` (the
zero-length read is always kept), while with threshold `t ≥ 1` — including
exactly 1 — it discards iff the N count strictly exceeds `t`, so a read
with exactly `t` Ns is kept. -/
theorem ncontent_threshold_semantics (t : ℚ) (fl : NContentFilter)
    (h : NContentFilter.init t = some fl) (r : Read) :
    NContentFilter.nCount r = (r.sequence.filter fun c => c == 'N' || c == 'n').length ∧
    (t < 1 → (fl.call r = DISCARD ↔
      (r.len ≠ 0 ∧ (NContentFilter.nCount r : ℚ) / (r.len : ℚ) > t))) ∧
    (1 ≤ t → (fl.call r = DISCARD ↔ (NContentFilter.nCount r : ℚ) > t)) ∧
    (1 ≤ t → (NContentFilter.nCount r : ℚ) = t → fl.call r = KEEP) := by
  have hfl : fl = ⟨decide (t < 1), t⟩ := by
    unfold NContentFilter.init at h
    by_cases h0 : 0 ≤ t
    · rw [if_pos h0] at h
      exact (Option.some_inj.mp h).symm
    · rw [if_neg h0] at h
      simp at h
  subst hfl
  refine ⟨nCount_filter_eq r.sequence, ?_, ?_, ?_⟩
  · intro ht
    have hp : decide (t < 1) = true := decide_eq_true ht
    simp only [NContentFilter.call, DISCARD, hp, if_true]
    by_cases hz : r.len = 0 <;> simp [hz]
  · intro ht
    have hp : decide (t < 1) = false := decide_eq_false (not_lt.mpr ht)
    simp only [NContentFilter.call, DISCARD, hp]
    simp
  · intro ht heq
    have hp : decide (t < 1) = false := decide_eq_false (not_lt.mpr ht)
    simp only [NContentFilter.call, KEEP, hp]
    simp [heq]

/-- C2 witness: threshold exactly 1 is absolute-count mode, so a read with
exactly one N is kept. -/
theorem ncontent_threshold_semantics_witness :
    NContentFilter.init 1 = some ⟨false, 1⟩ ∧
    NContentFilter.call ⟨false, 1⟩ readN1 = KEEP := by
  constructor
  · rfl
  · have hn : NContentFilter.nCount readN1 = 1 := rfl
    exact (ncontent_threshold_semantics 1 ⟨false, 1⟩ rfl readN1).2.2.2 le_rfl
      (by rw [hn]; norm_num)

/-! ### C10: NContentFilter construction -/

/-- C10: constructing `NContentFilter` with a negative threshold fails the
`assert count >= 0` at construction time; for every threshold `≥ 0`
construction succeeds, and the constructed filter's proportion-versus-
absolute mode and cutoff are fixed from the threshold at construction
(`__call__` returns only a verdict, so neither can change afterwards). -/
theorem ncontent_construction (t : ℚ) :
    ((NContentFilter.init t).isSome ↔ 0 ≤ t) ∧
    (∀ fl, NContentFilter.init t = some fl →
      fl.is_proportion = decide (t < 1) ∧ fl.cutoff = t) := by
  constructor
  · unfold NContentFilter.init
    by_cases h0 : 0 ≤ t <;> simp [h0]
  · intro fl h
    unfold NContentFilter.init at h
    by_cases h0 : 0 ≤ t
    · rw [if_pos h0] at h
      obtain rfl := Option.some_inj.mp h
      exact ⟨rfl, rfl⟩
    · rw [if_neg h0] at h
      simp at h

/-- C10 witness: a negative threshold fails; threshold 1/2 yields
proportion mode. -/
theorem ncontent_construction_witness :
    ¬ (NContentFilter.init (-1)).isSome ∧
    NContentFilter.is_proportion ⟨true, 1/2⟩ = decide ((1 : ℚ)/2 < 1) := by
  constructor
  · intro hs
    have hneg := (ncontent_construction (-1)).1.mp hs
    norm_num at hneg
  · exact ((ncontent_construction (1/2)).2 ⟨true, 1/2⟩ (by norm_num [NContentFilter.init])).1

/-! ### C9: the factory dispatches on the paired-mode string -/

/-- C9: the factory builds a `PairedWrapper` (with its stored
`min_affected` and the given predicate) only when `paired` is exactly the
string "both"; for every other value it builds a `SingleWrapper` around the
predicate. -/
theorem factory_dispatch (fac : FilterFactory) (f : Read → Bool) :
    (∀ pw, fac.call f = some (Wrapper.paired pw) →
      fac.paired = "both" ∧ pw.min_affected = fac.min_affected ∧
      pw.filter = f ∧ pw.filtered = 0) ∧
    (fac.paired ≠ "both" → fac.call f = some (Wrapper.single (SingleWrapper.init f))) ∧
    (fac.paired = "both" → ∀ w, fac.call f = some w → ∃ pw, w = Wrapper.paired pw) := by
  refine ⟨?_, ?_, ?_⟩
  · intro pw h
    unfold FilterFactory.call at h
    by_cases hp : fac.paired = "both"
    · rw [if_pos hp] at h
      refine ⟨hp, ?_⟩
      cases hi : PairedWrapper.init f fac.min_affected with
      | none => rw [hi] at h; simp at h
      | some pw' =>
          rw [hi] at h
          simp only [Option.map_some'] at h
          have hpw : pw' = pw := by
            have h2 := Option.some_inj.mp h
            cases h2
            rfl
          subst hpw
          obtain ⟨_, rfl⟩ := pairedWrapper_init_elim f fac.min_affected pw' hi
          exact ⟨rfl, rfl, rfl⟩
    · rw [if_neg hp] at h
      simp at h
  · intro hp
    unfold FilterFactory.call
    rw [if_neg hp]
  · intro hp w h
    unfold FilterFactory.call at h
    rw [if_pos hp] at h
    cases hi : PairedWrapper.init f fac.min_affected with
    | none => rw [hi] at h; simp at h
    | some pw' =>
        rw [hi] at h
        simp only [Option.map_some'] at h
        exact ⟨pw', (Option.some_inj.mp h).symm⟩

/-- C9 witness: mode "both" yields a `PairedWrapper` with the stored
threshold; mode "legacy" yields a `SingleWrapper`. -/
theorem factory_dispatch_witness :
    FilterFactory.paired ⟨"both", 2⟩ = "both" ∧
    FilterFactory.call ⟨"legacy", 2⟩ (fun _ => true) =
      some (Wrapper.single (SingleWrapper.init (fun _ => true))) :=
  ⟨((factory_dispatch ⟨"both", 2⟩ (fun _ => true)).1 ⟨0, fun _ => true, 2⟩ rfl).1,
    (factory_dispatch ⟨"legacy", 2⟩ (fun _ => true)).2.1 (by decide)⟩

/-! ### C4: first-match-wins evaluation of the chain -/

theorem filterLoop_spec (l : List (FilterType × Wrapper)) (r1 : Read) (r2 : Option Read) :
    (∀ i p, l[i]? = some p → discards p.2 r1 r2 = true →
      (∀ j q, j < i → l[j]? = some q → discards q.2 r1 r2 = false) →
      (filterLoop l r1 r2).1 = p.1 ∧
      (filterLoop l r1 r2).2 = l.set i (p.1, (p.2.call r1 r2).2)) ∧
    ((∀ p ∈ l, discards p.2 r1 r2 = false) →
      (filterLoop l r1 r2).1 = FilterType.NoFilter ∧ (filterLoop l r1 r2).2 = l) := by
  induction l with
  | nil =>
      constructor
      · intro i p hp
        simp at hp
      · intro _
        exact ⟨rfl, rfl⟩
  | cons hd rest ih =>
      obtain ⟨ft, w⟩ := hd
      constructor
      · intro i p hp hdisc hfirst
        cases i with
        | zero =>
            rw [List.getElem?_cons_zero] at hp
            obtain rfl := Option.some_inj.mp hp
            have hc : (w.call r1 r2).1 = DISCARD := hdisc
            unfold filterLoop
            rw [if_pos hc]
            exact ⟨rfl, rfl⟩
        | succ i =>
            rw [List.getElem?_cons_succ] at hp
            have h0 : discards w r1 r2 = false :=
              hfirst 0 (ft, w) (Nat.succ_pos i) (List.getElem?_cons_zero)
            have hc : ¬ ((w.call r1 r2).1 = DISCARD) := by
              simp [discards] at h0
              simp [h0, DISCARD]
            have hkeep : (w.call r1 r2).2 = w := wrapper_call_keep w r1 r2 hc
            have ihp := ih.1 i p hp hdisc (fun j q hj hq =>
              hfirst (j + 1) q (Nat.succ_lt_succ hj)
                (by rw [List.getElem?_cons_succ]; exact hq))
            unfold filterLoop
            rw [if_neg hc, hkeep]
            exact ⟨ihp.1, by rw [ihp.2]; rfl⟩
      · intro hall
        have h0 : discards w r1 r2 = false := hall (ft, w) (List.mem_cons_self _ _)
        have hc : ¬ ((w.call r1 r2).1 = DISCARD) := by
          simp [discards] at h0
          simp [h0, DISCARD]
        have hkeep : (w.call r1 r2).2 = w := wrapper_call_keep w r1 r2 hc
        have iht := ih.2 (fun p hp => hall p (List.mem_cons_of_mem _ hp))
        unfold filterLoop
        rw [if_neg hc, hkeep]
        exact ⟨iht.1, by rw [iht.2]⟩

/-- C4: `Filters.filter` walks the registered entries in insertion order.
When entry `i` is the first whose wrapper discards, the returned identity
is that entry's, the chain is unchanged except that entry `i` carries the
wrapper updated by its own call — whose counter went up by exactly one —
and the entries after `i` were never called.  When no wrapper discards, the
returned identity is `NoFilter` and the chain (all counters included) is
unchanged. -/
theorem filters_first_match (fs : Filters) (r1 : Read) (r2 : Option Read) :
    (∀ i p, fs.filters[i]? = some p → discards p.2 r1 r2 = true →
      (∀ j q, j < i → fs.filters[j]? = some q → discards q.2 r1 r2 = false) →
      (fs.filter r1 r2).1 = p.1 ∧
      (fs.filter r1 r2).2.filters = fs.filters.set i (p.1, (p.2.call r1 r2).2) ∧
      (p.2.call r1 r2).2.filtered = p.2.filtered + 1) ∧
    ((∀ p ∈ fs.filters, discards p.2 r1 r2 = false) →
      (fs.filter r1 r2).1 = FilterType.NoFilter ∧
      (fs.filter r1 r2).2.filters = fs.filters) := by
  constructor
  · intro i p hp hdisc hfirst
    have hl := (filterLoop_spec fs.filters r1 r2).1 i p hp hdisc hfirst
    refine ⟨hl.1, hl.2, ?_⟩
    have hcount := wrapper_call_filtered p.2 r1 r2
    have hd2 : (p.2.call r1 r2).1 = DISCARD := hdisc
    rw [if_pos hd2] at hcount
    exact hcount
  · intro hall
    exact (filterLoop_spec fs.filters r1 r2).2 hall

/-- A wrapper that discards every record. -/
def wrapTrue : Wrapper := Wrapper.single (SingleWrapper.init fun _ => true)

/-- A wrapper that keeps every record. -/
def wrapFalse : Wrapper := Wrapper.single (SingleWrapper.init fun _ => false)

/-- A chain of two always-discarding filters. -/
def fsBoth : Filters :=
  ⟨[(FilterType.TooShortReadFilter, wrapTrue), (FilterType.NContentFilter, wrapTrue)],
    ⟨"legacy", 1⟩⟩

/-- A chain whose single filter keeps everything. -/
def fsNone : Filters := ⟨[(FilterType.TooShortReadFilter, wrapFalse)], ⟨"legacy", 1⟩⟩

/-- C4 witness: with two discarding filters the identity registered first
wins; with no matching filter the `NoFilter` identity is returned and the
chain is unchanged. -/
theorem filters_first_match_witness :
    ((fsBoth.filter readEmpty none).1 = FilterType.TooShortReadFilter) ∧
    ((fsNone.filter readEmpty none).1 = FilterType.NoFilter ∧
      (fsNone.filter readEmpty none).2.filters = fsNone.filters) :=
  ⟨((filters_first_match fsBoth readEmpty none).1 0 (FilterType.TooShortReadFilter, wrapTrue)
      rfl rfl (fun j q hj _ => absurd hj (Nat.not_lt_zero j))).1,
    (filters_first_match fsNone readEmpty none).2 (by
      intro p hp
      simp only [fsNone, List.mem_singleton] at hp
      rw [hp]
      rfl)⟩

/-! ### C8: registration order and replacement -/

theorem dictSet_keys (l : List (FilterType × Wrapper)) (k : FilterType) (v : Wrapper) :
    (dictSet l k v).map Prod.fst =
      if k ∈ l.map Prod.fst then l.map Prod.fst else l.map Prod.fst ++ [k] := by
  induction l with
  | nil => simp [dictSet]
  | cons hd rest ih =>
      obtain ⟨k', v'⟩ := hd
      simp only [dictSet]
      by_cases hk : k' = k
      · subst hk
        simp
      · rw [if_neg hk]
        simp only [List.map_cons, ih]
        by_cases hmem : k ∈ rest.map Prod.fst
        · simp [hmem]
        · have hnot : ¬ k ∈ k' :: rest.map Prod.fst := by
            rw [List.mem_cons]
            rintro (rfl | hin)
            · exact hk rfl
            · exact hmem hin
          rw [if_neg hmem, if_neg hnot, List.cons_append]

theorem dictSet_mem (l : List (FilterType × Wrapper)) (k : FilterType) (v : Wrapper)
    (hnd : (l.map Prod.fst).Nodup) :
    ∀ p ∈ dictSet l k v, p = (k, v) ∨ (p ∈ l ∧ p.1 ≠ k) := by
  induction l with
  | nil =>
      intro p hp
      simp only [dictSet, List.mem_singleton] at hp
      exact Or.inl hp
  | cons hd rest ih =>
      obtain ⟨k', v'⟩ := hd
      rw [List.map_cons, List.nodup_cons] at hnd
      intro p hp
      simp only [dictSet] at hp
      by_cases hk : k' = k
      · subst hk
        rw [if_pos rfl] at hp
        rcases List.mem_cons.mp hp with rfl | hmem
        · exact Or.inl rfl
        · exact Or.inr ⟨List.mem_cons_of_mem _ hmem,
            fun hpk => hnd.1 (List.mem_map.mpr ⟨p, hmem, hpk⟩)⟩
      · rw [if_neg hk] at hp
        rcases List.mem_cons.mp hp with rfl | hmem
        · exact Or.inr ⟨List.mem_cons_self _ _, hk⟩
        · rcases ih hnd.2 p hmem with h | ⟨h1, h2⟩
          · exact Or.inl h
          · exact Or.inr ⟨List.mem_cons_of_mem _ h1, h2⟩

theorem dictSet_nodup (l : List (FilterType × Wrapper)) (k : FilterType) (v : Wrapper)
    (hnd : (l.map Prod.fst).Nodup) : ((dictSet l k v).map Prod.fst).Nodup := by
  rw [dictSet_keys]
  by_cases hmem : k ∈ l.map Prod.fst
  · simpa [hmem] using hnd
  · rw [if_neg hmem, List.nodup_append]
    exact ⟨hnd, List.nodup_singleton k, by simpa [List.disjoint_singleton] using hmem⟩

theorem factory_call_filtered (fac : FilterFactory) (f : Read → Bool) (w : Wrapper)
    (h : fac.call f = some w) : w.filtered = 0 := by
  unfold FilterFactory.call at h
  by_cases hp : fac.paired = "both"
  · rw [if_pos hp] at h
    cases hi : PairedWrapper.init f fac.min_affected with
    | none => rw [hi] at h; simp at h
    | some pw =>
        rw [hi] at h
        simp only [Option.map_some'] at h
        obtain ⟨_, rfl⟩ := pairedWrapper_init_elim f fac.min_affected pw hi
        obtain rfl := Option.some_inj.mp h
        rfl
  · rw [if_neg hp] at h
    obtain rfl := Option.some_inj.mp h
    rfl

/-- C8: `add_filter` on a chain whose identities are distinct keeps the
iteration order equal to first-insertion order: a new identity is appended
at the end, a re-registered identity keeps its original position; the
entry stored under the registered identity is the freshly built wrapper
(counter zero), and every other entry is untouched. -/
theorem add_filter_order (fs : Filters) (ft : FilterType) (f : Read → Bool) (fs' : Filters)
    (hnd : (fs.filters.map Prod.fst).Nodup)
    (h : fs.add_filter ft f = some fs') :
    (fs'.filters.map Prod.fst =
      if ft ∈ fs.filters.map Prod.fst then fs.filters.map Prod.fst
      else fs.filters.map Prod.fst ++ [ft]) ∧
    (fs'.filters.map Prod.fst).Nodup ∧
    (∀ p ∈ fs'.filters, p.1 = ft →
      fs.filter_factory.call f = some p.2 ∧ p.2.filtered = 0) ∧
    (∀ p ∈ fs'.filters, p.1 ≠ ft → p ∈ fs.filters) := by
  unfold Filters.add_filter at h
  cases hw : fs.filter_factory.call f with
  | none => rw [hw] at h; simp at h
  | some w =>
      rw [hw] at h
      simp only [Option.map_some'] at h
      obtain rfl := Option.some_inj.mp h
      refine ⟨dictSet_keys fs.filters ft w, dictSet_nodup fs.filters ft w hnd, ?_, ?_⟩
      · intro p hp hpft
        rcases dictSet_mem fs.filters ft w hnd p hp with rfl | ⟨_, hne⟩
        · exact ⟨rfl, factory_call_filtered _ f w hw⟩
        · exact absurd hpft hne
      · intro p hp hne
        rcases dictSet_mem fs.filters ft w hnd p hp with rfl | ⟨h1, _⟩
        · exact absurd rfl hne
        · exact h1

/-- An empty chain with a legacy-mode factory. -/
def fsEmpty : Filters := ⟨[], ⟨"legacy", 1⟩⟩

/-- C8 witness: registering a new identity on the empty chain appends it. -/
theorem add_filter_order_witness :
    (Filters.mk [(FilterType.TooShortReadFilter, wrapFalse)] ⟨"legacy", 1⟩).filters.map
        Prod.fst =
      if FilterType.TooShortReadFilter ∈ fsEmpty.filters.map Prod.fst then
        fsEmpty.filters.map Prod.fst
      else fsEmpty.filters.map Prod.fst ++ [FilterType.TooShortReadFilter] :=
  (add_filter_order fsEmpty FilterType.TooShortReadFilter (fun _ => false)
    ⟨[(FilterType.TooShortReadFilter, wrapFalse)], ⟨"legacy", 1⟩⟩
    List.nodup_nil rfl).1
